import Mathlib

/-!
Shallow embedding of the request-execution core of the fauna Go driver
(template parser, retrying request executor, transaction-time watermark,
page iterator), together with theorems settling the specification claims.

Positions are character offsets into the template text; every template in
the claims is ASCII, where character offsets and Go byte offsets coincide.
-/

deriving instance DecidableEq for Except

/-! ## Template parser (template.go) -/

/-- The two part categories, mirroring the Go constants `templateVariable`
and `templateLiteral`. -/
inductive templateCategory where
  | templateLiteral
  | templateVariable
deriving DecidableEq, Repr

/-- One parsed part, mirroring the Go struct `templatePart`. -/
structure templatePart where
  Text : String
  Category : templateCategory
deriving DecidableEq, Repr

/-- The Go struct `template` (the compiled regex is represented by the scanner
`findMatches` below). -/
structure template where
  text : String

/-- Mirrors `newTemplate`. -/
def newTemplate (text : String) : template := ⟨text⟩

/-- The character `{` (written via its code point to keep braces out of
literals). -/
def lbrace : Char := Char.ofNat 123

/-- The character `}`. -/
def rbrace : Char := Char.ofNat 125

/-- The regex character class `[_a-zA-Z0-9]` of the `braced` capture group. -/
def isNameChar (c : Char) : Bool :=
  c = '_' || ('a' ≤ c && c ≤ 'z') || ('A' ≤ c && c ≤ 'Z') || ('0' ≤ c && c ≤ '9')

/-- Which alternative of the regex
`\$(?:(?P<escaped>\$)|(?:braced)|(?P<invalid>))` matched. -/
inductive MatchKind where
  | escaped
  | braced (name : String)
  | invalid
deriving DecidableEq, Repr

/-- One regex match: `start`/`stop` are the indices `matchIndex[0]` and
`matchIndex[1]` reported by `FindAllStringSubmatchIndex`. -/
structure RegexMatch where
  start : Nat
  stop : Nat
  kind : MatchKind
deriving DecidableEq, Repr

/-- The scan performed by `FindAllStringSubmatch` for the template regex:
every match consumes a `$` and then prefers, in order, a second `$`
(escaped), a brace-delimited name (braced), or the empty alternative
(invalid).  After an invalid match (whose full match is just the `$`) the
scan resumes one character past the `$`.  The fuel argument is the length
of the scanned list, so the fuel never runs out; it only makes the
recursion structural. -/
def findMatchesAux : Nat → List Char → Nat → List RegexMatch
  | 0, _, _ => []
  | _ + 1, [], _ => []
  | fuel + 1, c :: cs, i =>
    if c = '$' then
      match cs with
      | [] => ⟨i, i + 1, .invalid⟩ :: findMatchesAux fuel cs (i + 1)
      | c2 :: cs2 =>
        if c2 = '$' then
          ⟨i, i + 2, .escaped⟩ :: findMatchesAux fuel cs2 (i + 2)
        else if c2 = lbrace then
          let name := cs2.takeWhile isNameChar
          match cs2.dropWhile isNameChar with
          | c3 :: cs3 =>
            if c3 = rbrace then
              ⟨i, i + name.length + 3, .braced (String.mk name)⟩ ::
                findMatchesAux fuel cs3 (i + name.length + 3)
            else
              ⟨i, i + 1, .invalid⟩ :: findMatchesAux fuel cs (i + 1)
          | [] => ⟨i, i + 1, .invalid⟩ :: findMatchesAux fuel cs (i + 1)
        else
          ⟨i, i + 1, .invalid⟩ :: findMatchesAux fuel cs (i + 1)
    else
      findMatchesAux fuel cs (i + 1)

/-- All matches of the template regex in `cs`. -/
def findMatches (cs : List Char) : List RegexMatch :=
  findMatchesAux cs.length cs 0

/-- The loop body of `template.Parse`.  For an invalid match the error
carries `m.start + 1`: the empty `invalid` capture group begins one byte
past the consumed `$`, and that is the position Go reports
(`matchIndex[invalidIndex*2]`). -/
def parseParts (text : List Char) :
    List RegexMatch → Nat → List templatePart → Except Nat (List templatePart)
  | [], currentPosition, parts =>
    if currentPosition < text.length then
      .ok (parts ++ [⟨String.mk (text.drop currentPosition), .templateLiteral⟩])
    else
      .ok parts
  | m :: ms, currentPosition, parts =>
    match m.kind with
    | .invalid => .error (m.start + 1)
    | _ =>
      let escaped : List Char := match m.kind with | .escaped => ['$'] | _ => []
      let variableName : String := match m.kind with | .braced n => n | _ => ""
      let parts :=
        if currentPosition < m.start then
          parts ++ [⟨String.mk ((text.drop currentPosition).take (m.start - currentPosition)
            ++ escaped), .templateLiteral⟩]
        else parts
      let parts :=
        if variableName.length > 0 then parts ++ [⟨variableName, .templateVariable⟩]
        else parts
      parseParts text ms m.stop parts

/-- Mirrors the Go method `Parse`: find all matches, then walk them,
emitting literal and variable parts; an error carries the reported
position. -/
def template.Parse (t : template) : Except Nat (List templatePart) :=
  parseParts t.text.data (findMatches t.text.data) 0 []

/-! ## Client, retry and backoff (client.go) -/

/-- The slice of an HTTP response the retry loop inspects. -/
structure HttpResponse where
  StatusCode : Nat
deriving DecidableEq, Repr

/-- Outcome of one `c.http.Do(req)` call: either a transport-level error
(the Go `err`, whose message is carried unchanged) or a response. -/
inductive SendResult where
  | failure (e : String)
  | response (r : HttpResponse)
deriving DecidableEq, Repr

/-- `http.StatusTooManyRequests`. -/
def StatusTooManyRequests : Nat := 429

/-- `retryMaxAttemptsDefault = 3`. -/
def retryMaxAttemptsDefault : Nat := 3

/-- `retryMaxBackoffDefault = time.Second * 20`; durations are int64
nanosecond counts, as in Go's `time.Duration`. -/
def retryMaxBackoffDefault : Int := 20 * 1000000000

/-- The `txnTime` struct; the `sync.RWMutex` serialises access, so the
sequential model carries just the `Value` field. -/
structure txnTime where
  Value : Int
deriving DecidableEq, Repr

/-- `txnTime.sync`: the compare-and-swap loop run under the write lock.
Serialised by the lock, one call either keeps the current value (when it is
already `≥ newTxnTime`) or installs `newTxnTime`. -/
def txnTime.sync (t : txnTime) (newTxnTime : Int) : txnTime :=
  if t.Value ≥ newTxnTime then t else ⟨newTxnTime⟩

/-- The `Client` fields the claims depend on (URL, secret, headers and the
HTTP transport are plumbing supplied by collaborators). -/
structure Client where
  maxAttempts : Nat
  maxBackoff : Int
  lastTxnTime : txnTime
deriving DecidableEq, Repr

/-- The retry-relevant defaults `NewClient` installs: `maxAttempts :=
retryMaxAttemptsDefault`, `maxBackoff := retryMaxBackoffDefault`,
`lastTxnTime := txnTime{}` (zero value). -/
def defaultClient : Client :=
  { maxAttempts := retryMaxAttemptsDefault
    maxBackoff := retryMaxBackoffDefault
    lastTxnTime := ⟨0⟩ }

/-- `Client.doWithRetry`.  The transport is a function from the attempt
number to that send's outcome (each recursion level performs exactly one
send, at a distinct attempt number).  The first component counts the
transport sends performed in the whole call; the second is the value the
caller receives.  The body drain (`io.Copy` of at most 4096 bytes) and the
`time.Sleep` are I/O with no bearing on the returned value and are not
modelled. -/
def Client.doWithRetry (c : Client) (transport : Nat → SendResult)
    (attemptNumber : Nat) : Nat × SendResult :=
  match transport attemptNumber with
  | .failure e => (1, .failure e)
  | .response r =>
    if h : attemptNumber ≤ c.maxAttempts then
      if r.StatusCode = StatusTooManyRequests then
        let rest := c.doWithRetry transport (attemptNumber + 1)
        (1 + rest.1, rest.2)
      else
        (1, .response r)
    else
      (1, .response r)
termination_by c.maxAttempts + 1 - attemptNumber
decreasing_by omega

/-- A transport stub that answers every send with HTTP 429. -/
def always429 : Nat → SendResult := fun _ => .response ⟨StatusTooManyRequests⟩

/-- `Client.backoff`.  `rand.Float64` yields a dyadic rational in `[0,1)`,
and multiplying it by the float `math.Pow(2, attempt)` (a power of two) is
exact, so the float computation is modelled exactly by `ℚ`.  The Go
conversion `time.Duration(mult)` truncates the float to an int64 — for the
nonnegative `mult` values the jitter produces this is the floor — and the
result is then scaled by `time.Second` (`10^9` ns) and capped at
`maxBackoff`. -/
def Client.backoff (c : Client) (attempt : Nat) (jitter : ℚ) : Int :=
  let mult : ℚ := 2 ^ attempt * jitter
  let sleep : Int := ⌊mult⌋ * 1000000000
  if sleep > c.maxBackoff then c.maxBackoff else sleep

/-- The backoff duration exactly as §4.4 of the spec words it:
`min(maxBackoff, 2^attempt * jitter seconds)`, in nanoseconds as an exact
rational.  Stated from the spec's words, for comparison with
`Client.backoff`. -/
def backoffSpecFormula (maxBackoff : Int) (attempt : Nat) (jitter : ℚ) : ℚ :=
  min (maxBackoff : ℚ) (2 ^ attempt * jitter * 1000000000)

/-- `Client.SetLastTxnTime`; the argument is `txnTime.UnixMicro()`, the
microsecond timestamp of the caller-supplied `time.Time`. -/
def Client.SetLastTxnTime (c : Client) (txnTimeMicros : Int) : Client :=
  if txnTimeMicros > c.lastTxnTime.Value then { c with lastTxnTime := ⟨txnTimeMicros⟩ }
  else c

/-- `Client.GetLastTxnTime`. -/
def Client.GetLastTxnTime (c : Client) : Int := c.lastTxnTime.Value

/-- A sequence of `SetLastTxnTime` calls on one client, in order. -/
def observeAll (c : Client) (l : List Int) : Client :=
  l.foldl Client.SetLastTxnTime c

/-! ## Page iterator (client.go) -/

/-- Decoded response payloads (`res.Data`, a Go `any`): a typed `*Page`, a
generic string-keyed mapping, a sequence, or a scalar. -/
inductive Value where
  | page (after : String) (data : List Value)
  | obj (fields : List (String × Value))
  | arr (elems : List Value)
  | str (s : String)
  | num (n : Int)
  | null

/-- The `Page` struct. -/
structure Page where
  After : String
  Data : List Value

/-- Modelled from the spec: `FQL` (its definition is not among the sources
in scope) builds a query value from a template string and an argument map;
template parsing of the fixed continuation template always succeeds, so the
builder is total here. -/
inductive Query where
  | fql (queryTemplate : String) (args : List (String × Value))

/-- The continuation template the iterator feeds to `FQL`
(the string `Set.paginate(` + a `${after}` placeholder + `)`). -/
def setPaginateTemplate : String := "Set.paginate($\x7bafter\x7d)"

/-- The iterator state the claims depend on: the stored next query
(`nil` when exhausted). -/
structure QueryIterator where
  fql : Option Query

/-- `QueryIterator.nextPage`: clear the template on an empty cursor,
otherwise store the cursor-continuation query. -/
def QueryIterator.nextPage (q : QueryIterator) (after : String) : QueryIterator :=
  if after = "" then { q with fql := none }
  else { fql := some (Query.fql setPaginateTemplate [("after", Value.str after)]) }

/-- `QueryIterator.HasNext`: `q.fql != nil`. -/
def QueryIterator.HasNext (q : QueryIterator) : Bool := q.fql.isSome

/-- Outcome of the `q.client.Query` call made inside `Next`. -/
inductive QueryOutcome where
  | queryError (e : String)
  | success (data : Value)

/-- What a `Next` call does: return an error, panic (a failed single-valued
type assertion), or produce a page. -/
inductive NextResult where
  | err (e : String)
  | panicked
  | ok (p : Page)

/-- `QueryIterator.Next`, with the executed query's outcome passed in.  The
`obj` branch mirrors the Go type assertions: `results["after"].(string)`
uses the comma-ok form (missing or non-string yields `""`), while
`results["data"].([]any)` is single-valued and panics unless the key holds
a sequence. -/
def QueryIterator.Next (q : QueryIterator) (res : QueryOutcome) :
    NextResult × QueryIterator :=
  match res with
  | .queryError e => (.err e, q)
  | .success data =>
    match data with
    | .page after pdata => (.ok ⟨after, pdata⟩, q.nextPage after)
    | .obj fields =>
      let after : String :=
        match List.lookup ("after") fields with
        | some (.str s) => s
        | _ => ""
      match List.lookup ("data") fields with
      | some (.arr l) => (.ok ⟨after, l⟩, q.nextPage after)
      | _ => (.panicked, q)
    | other => (.ok ⟨"", [other]⟩, q.nextPage "")

/-- Whether a mapping payload carries a `"data"` key holding a sequence —
the condition under which the `results["data"].([]any)` assertion succeeds. -/
def hasDataArray (fields : List (String × Value)) : Bool :=
  match List.lookup ("data") fields with
  | some (.arr _) => true
  | _ => false

/-- The iterator of the spec's termination scenario, initially holding the
caller's query. -/
def demoIterator0 : QueryIterator := ⟨some (Query.fql ("Item.all()") [])⟩

/-- After the first `Next`, whose page has cursor `"a"`. -/
def demoIterator1 : QueryIterator := (demoIterator0.Next (.success (.page ("a") []))).2

/-- After the second `Next`, whose page has cursor `"b"`. -/
def demoIterator2 : QueryIterator := (demoIterator1.Next (.success (.page ("b") []))).2

/-- After the third `Next`, whose page has an empty cursor. -/
def demoIterator3 : QueryIterator := (demoIterator2.Next (.success (.page ("") []))).2

/-! ## Helper lemmas about the template scanner -/

theorem findMatchesAux_nil (fuel i : Nat) : findMatchesAux fuel [] i = [] := by
  cases fuel <;> rfl

theorem findMatchesAux_no_dollar :
    ∀ (fuel : Nat) (cs : List Char) (i : Nat), '$' ∉ cs → findMatchesAux fuel cs i = [] := by
  intro fuel
  induction fuel with
  | zero => intro cs i _; rfl
  | succ fuel ih =>
    intro cs i h
    cases cs with
    | nil => rfl
    | cons c cs' =>
      rw [List.mem_cons, not_or] at h
      simp only [findMatchesAux]
      rw [if_neg (fun hc => h.1 hc.symm)]
      exact ih cs' (i + 1) h.2

theorem findMatchesAux_skip (u : List Char) :
    ∀ (fuel : Nat) (cs : List Char) (i : Nat), '$' ∉ u →
      findMatchesAux (u.length + fuel) (u ++ cs) i = findMatchesAux fuel cs (i + u.length) := by
  induction u with
  | nil => intro fuel cs i _; simp
  | cons a u ih =>
    intro fuel cs i h
    rw [List.mem_cons, not_or] at h
    have hfuel : (a :: u).length + fuel = (u.length + fuel) + 1 := by
      simp [List.length_cons]; omega
    rw [hfuel, List.cons_append]
    simp only [findMatchesAux]
    rw [if_neg (fun hc => h.1 hc.symm), ih fuel cs (i + 1) h.2]
    congr 1
    simp [List.length_cons]; omega

theorem findMatchesAux_dollar_start :
    ∀ (fuel : Nat) (cs : List Char) (i : Nat) (m : RegexMatch),
      m ∈ findMatchesAux fuel cs i →
      ∃ w1 w2, cs = w1 ++ '$' :: w2 ∧ m.start = i + w1.length := by
  intro fuel
  induction fuel with
  | zero => intro cs i m hm; simp [findMatchesAux] at hm
  | succ fuel ih =>
    intro cs i m hm
    cases cs with
    | nil => simp [findMatchesAux] at hm
    | cons c cs' =>
      simp only [findMatchesAux] at hm
      split at hm
      · -- c = '$'
        rename_i hc
        subst hc
        split at hm
        · -- cs' = []
          rw [findMatchesAux_nil, List.mem_singleton] at hm
          exact ⟨[], [], rfl, by simp [hm]⟩
        · -- cs' = c2 :: cs2
          rename_i c2 cs2
          split at hm
          · -- c2 = '$'
            rename_i h2
            subst h2
            rcases List.mem_cons.1 hm with hm | hm
            · exact ⟨[], '$' :: cs2, rfl, by simp [hm]⟩
            · obtain ⟨w1, w2, hw, hs⟩ := ih cs2 (i + 2) m hm
              refine ⟨'$' :: '$' :: w1, w2, by simp [hw], ?_⟩
              simp only [List.length_cons]
              omega
          · rename_i h2
            split at hm
            · -- c2 = lbrace
              rename_i hb
              split at hm
              · -- dropWhile = c3 :: cs3
                rename_i c3 cs3 hdw
                split at hm
                · -- c3 = rbrace
                  rcases List.mem_cons.1 hm with hm | hm
                  · exact ⟨[], c2 :: cs2, rfl, by simp [hm]⟩
                  · obtain ⟨w1, w2, hw, hs⟩ :=
                      ih cs3 (i + (cs2.takeWhile isNameChar).length + 3) m hm
                    have hcs2 : cs2 = cs2.takeWhile isNameChar ++ (c3 :: (w1 ++ '$' :: w2)) := by
                      conv_lhs => rw [← List.takeWhile_append_dropWhile (p := isNameChar) (l := cs2)]
                      rw [hdw, hw]
                    refine ⟨'$' :: c2 :: (cs2.takeWhile isNameChar ++ (c3 :: w1)), w2, ?_, ?_⟩
                    · conv_lhs => rw [hcs2]
                      simp
                    · simp only [List.length_cons, List.length_append]
                      omega
                · -- c3 ≠ rbrace
                  rcases List.mem_cons.1 hm with hm | hm
                  · exact ⟨[], c2 :: cs2, rfl, by simp [hm]⟩
                  · obtain ⟨w1, w2, hw, hs⟩ := ih (c2 :: cs2) (i + 1) m hm
                    refine ⟨'$' :: w1, w2, by simp [hw], ?_⟩
                    simp only [List.length_cons]
                    omega
              · -- dropWhile = []
                rcases List.mem_cons.1 hm with hm | hm
                · exact ⟨[], c2 :: cs2, rfl, by simp [hm]⟩
                · obtain ⟨w1, w2, hw, hs⟩ := ih (c2 :: cs2) (i + 1) m hm
                  refine ⟨'$' :: w1, w2, by simp [hw], ?_⟩
                  simp only [List.length_cons]
                  omega
            · -- c2 not a brace opener
              rcases List.mem_cons.1 hm with hm | hm
              · exact ⟨[], c2 :: cs2, rfl, by simp [hm]⟩
              · obtain ⟨w1, w2, hw, hs⟩ := ih (c2 :: cs2) (i + 1) m hm
                refine ⟨'$' :: w1, w2, by simp [hw], ?_⟩
                simp only [List.length_cons]
                omega
      · -- c is not a dollar
        rename_i hc
        obtain ⟨w1, w2, hw, hs⟩ := ih cs' (i + 1) m hm
        refine ⟨c :: w1, w2, by simp [hw], ?_⟩
        simp only [List.length_cons]
        omega

theorem parseParts_error_invalid (text : List Char) :
    ∀ (ms : List RegexMatch) (cur : Nat) (parts : List templatePart) (p : Nat),
      parseParts text ms cur parts = .error p →
      ∃ m ∈ ms, m.kind = .invalid ∧ p = m.start + 1 := by
  intro ms
  induction ms with
  | nil =>
    intro cur parts p h
    simp only [parseParts] at h
    split at h <;> simp at h
  | cons m ms ih =>
    intro cur parts p h
    simp only [parseParts] at h
    cases hk : m.kind with
    | invalid =>
      rw [hk] at h
      simp only at h
      exact ⟨m, List.mem_cons_self m ms, hk, (Except.error.inj h).symm⟩
    | escaped =>
      rw [hk] at h
      simp only at h
      obtain ⟨m', hmem, hinv, hp⟩ := ih _ _ _ h
      exact ⟨m', List.mem_cons_of_mem m hmem, hinv, hp⟩
    | braced name =>
      rw [hk] at h
      simp only at h
      obtain ⟨m', hmem, hinv, hp⟩ := ih _ _ _ h
      exact ⟨m', List.mem_cons_of_mem m hmem, hinv, hp⟩

theorem parseParts_variable_nonempty (text : List Char) :
    ∀ (ms : List RegexMatch) (cur : Nat) (parts0 parts : List templatePart),
      (∀ p ∈ parts0, p.Category = .templateVariable → p.Text ≠ "") →
      parseParts text ms cur parts0 = .ok parts →
      ∀ p ∈ parts, p.Category = .templateVariable → p.Text ≠ "" := by
  intro ms
  induction ms with
  | nil =>
    intro cur parts0 parts h0 h
    simp only [parseParts] at h
    split at h <;> rw [Except.ok.injEq] at h <;> subst h
    · intro p hp hcat
      rcases List.mem_append.1 hp with hp | hp
      · exact h0 p hp hcat
      · rw [List.mem_singleton] at hp
        subst hp
        simp at hcat
    · exact h0
  | cons m ms ih =>
    intro cur parts0 parts h0 h
    simp only [parseParts] at h
    cases hk : m.kind with
    | invalid => rw [hk] at h; simp at h
    | escaped =>
      rw [hk] at h
      simp only at h
      rw [if_neg (by simp : ¬ ("" : String).length > 0)] at h
      refine ih _ _ _ ?_ h
      intro p hp hcat
      split at hp
      · rcases List.mem_append.1 hp with hp | hp
        · exact h0 p hp hcat
        · rw [List.mem_singleton] at hp
          subst hp
          simp at hcat
      · exact h0 p hp hcat
    | braced name =>
      rw [hk] at h
      simp only at h
      refine ih _ _ _ ?_ h
      intro p hp hcat
      split at hp
      · -- a nonempty name was emitted as a variable part
        rename_i hlen
        rcases List.mem_append.1 hp with hp | hp
        · split at hp
          · rcases List.mem_append.1 hp with hp | hp
            · exact h0 p hp hcat
            · rw [List.mem_singleton] at hp
              subst hp
              simp at hcat
          · exact h0 p hp hcat
        · rw [List.mem_singleton] at hp
          subst hp
          intro he
          have hname : name = "" := he
          rw [hname] at hlen
          simp at hlen
      · split at hp
        · rcases List.mem_append.1 hp with hp | hp
          · exact h0 p hp hcat
          · rw [List.mem_singleton] at hp
            subst hp
            simp at hcat
        · exact h0 p hp hcat


/-! ## Helper lemmas about the retry loop and the watermark -/

theorem doWithRetry_const429 (c : Client) :
    ∀ (n a : Nat), c.maxAttempts + 1 = a + n →
      c.doWithRetry always429 a = (n + 1, .response ⟨StatusTooManyRequests⟩) := by
  intro n
  induction n with
  | zero =>
    intro a ha
    unfold Client.doWithRetry
    simp only [always429]
    rw [dif_neg (by omega : ¬ a ≤ c.maxAttempts)]
  | succ n ih =>
    intro a ha
    unfold Client.doWithRetry
    simp only [always429]
    rw [dif_pos (by omega : a ≤ c.maxAttempts), if_pos trivial, ih (a + 1) (by omega)]
    show (1 + (n + 1), SendResult.response ⟨StatusTooManyRequests⟩) =
      (n + 1 + 1, SendResult.response ⟨StatusTooManyRequests⟩)
    rw [Nat.add_comm 1 (n + 1)]

theorem getLastTxnTime_observeAll :
    ∀ (l : List Int) (c : Client),
      (observeAll c l).GetLastTxnTime = l.foldl max c.GetLastTxnTime := by
  intro l
  induction l with
  | nil => intro c; rfl
  | cons x l ih =>
    intro c
    have hstep : (c.SetLastTxnTime x).GetLastTxnTime = max c.GetLastTxnTime x := by
      unfold Client.SetLastTxnTime Client.GetLastTxnTime
      split
      · rename_i hx
        exact (max_eq_right (le_of_lt hx)).symm
      · rename_i hx
        exact (max_eq_left (by omega)).symm
    show (observeAll (c.SetLastTxnTime x) l).GetLastTxnTime =
      List.foldl max c.GetLastTxnTime (x :: l)
    rw [List.foldl_cons, ih, hstep]

theorem foldl_max_mem_le :
    ∀ (l : List Int) (init : Int),
      init ≤ l.foldl max init ∧ (∀ x ∈ l, x ≤ l.foldl max init) ∧
        (l.foldl max init = init ∨ l.foldl max init ∈ l) := by
  intro l
  induction l with
  | nil => intro init; exact ⟨le_refl _, by simp, Or.inl rfl⟩
  | cons x l ih =>
    intro init
    rw [List.foldl_cons]
    obtain ⟨h1, h2, h3⟩ := ih (max init x)
    refine ⟨le_trans (le_max_left _ _) h1, ?_, ?_⟩
    · intro y hy
      rcases List.mem_cons.1 hy with hy | hy
      · subst hy
        exact le_trans (le_max_right _ _) h1
      · exact h2 y hy
    · rcases h3 with h3 | h3
      · rcases max_choice init x with hm | hm
        · exact Or.inl (h3.trans hm)
        · exact Or.inr (by rw [h3.trans hm]; exact List.mem_cons_self x l)
      · exact Or.inr (List.mem_cons_of_mem x h3)

theorem findMatchesAux_escaped_cons (fuel : Nat) (cs : List Char) (i : Nat) :
    findMatchesAux (fuel + 1) ('$' :: '$' :: cs) i =
      ⟨i, i + 2, .escaped⟩ :: findMatchesAux fuel cs (i + 2) := rfl

/-! ## Claim theorems -/

/-- Claim C1 (corrected): with a transport that always returns HTTP 429,
`doWithRetry` starting at attempt number 1 performs exactly
`maxAttempts + 1` sends — the initial send plus up to `maxAttempts`
retries, one more than the claim's `maxAttempts` — and returns the last
429 response to the caller. -/
theorem doWithRetry_throttle_sends (c : Client) :
    c.doWithRetry always429 1 =
      (c.maxAttempts + 1, .response ⟨StatusTooManyRequests⟩) :=
  doWithRetry_const429 c c.maxAttempts 1 (by omega)

/-- Claim C1 counterexample: with the default configuration
(`maxAttempts = 3`) the always-429 transport is sent to 4 times, not
`maxAttempts` times as the claim states. -/
theorem doWithRetry_throttle_cex :
    (defaultClient.doWithRetry always429 1).1 = 4
    ∧ defaultClient.maxAttempts = 3
    ∧ (defaultClient.doWithRetry always429 1).1 ≠ defaultClient.maxAttempts := by
  have h := doWithRetry_const429 defaultClient 3 1 (by decide)
  rw [h]
  exact ⟨rfl, rfl, by decide⟩

/-- A single escape surrounded by dollar-free text: the closed form of the
whole parse. -/
theorem parse_single_escape (u v : List Char) (hu : '$' ∉ u) (hv : '$' ∉ v) :
    (newTemplate (String.mk (u ++ '$' :: '$' :: v))).Parse =
      .ok ((if u = [] then [] else [⟨String.mk (u ++ ['$']), .templateLiteral⟩])
        ++ (if v = [] then [] else [⟨String.mk v, .templateLiteral⟩])) := by
  have hm : findMatches (u ++ '$' :: '$' :: v) = [⟨u.length, u.length + 2, .escaped⟩] := by
    unfold findMatches
    have hlen : (u ++ '$' :: '$' :: v).length = u.length + (v.length + 1 + 1) := by
      simp [List.length_append]
    rw [hlen, findMatchesAux_skip u (v.length + 1 + 1) ('$' :: '$' :: v) 0 hu,
      findMatchesAux_escaped_cons, findMatchesAux_no_dollar (v.length + 1) v _ hv]
    simp
  show parseParts (u ++ '$' :: '$' :: v) (findMatches (u ++ '$' :: '$' :: v)) 0 [] = _
  rw [hm]
  simp only [parseParts]
  have htake : List.take (u.length - 0) (List.drop 0 (u ++ '$' :: '$' :: v)) = u := by
    simp [List.take_left]
  have hdrop : List.drop (u.length + 2) (u ++ '$' :: '$' :: v) = v := by
    rw [show u ++ '$' :: '$' :: v = (u ++ ['$', '$']) ++ v by simp,
      List.drop_left' (show (u ++ ['$', '$']).length = u.length + 2 by simp)]
  have hcond : (u.length + 2 < (u ++ '$' :: '$' :: v).length) ↔ v ≠ [] := by
    simp only [List.length_append, List.length_cons]
    constructor
    · intro h h0
      subst h0
      simp only [List.length_nil] at h
      omega
    · intro h
      have : 0 < v.length := List.length_pos.2 h
      omega
  rw [htake, hdrop, if_congr hcond rfl rfl, if_congr (List.length_pos (l := u)) rfl rfl,
    if_neg (by simp : ¬ ("" : String).length > 0)]
  rcases eq_or_ne u [] with hu0 | hu0 <;> rcases eq_or_ne v [] with hv0 | hv0 <;>
    simp [hu0, hv0]

/-- Claim C2 (corrected): how the parse loop handles every escaped match of
every template, at every loop state.  When there is intervening text before
the `$$` (the current position is below the match start), the single
literal `$` is appended to that text's literal part — no new part is
started and no variable part is produced.  When there is none — the escape
sits at the very start of the template or immediately after a previous
match — nothing is emitted and the `$` is dropped.  The remaining conjuncts
instantiate this end to end: a single escape in dollar-free context (closed
form over all such templates), an escape right after a `${a}` placeholder,
an escape right after another escape, and several escapes in one
template. -/
theorem parse_escape_appends :
    (∀ (text : List Char) (s : Nat) (ms : List RegexMatch) (cur : Nat)
        (parts0 : List templatePart), cur < s →
      parseParts text (⟨s, s + 2, .escaped⟩ :: ms) cur parts0 =
        parseParts text ms (s + 2)
          (parts0 ++ [⟨String.mk (List.take (s - cur) (List.drop cur text) ++ ['$']),
            .templateLiteral⟩]))
    ∧ (∀ (text : List Char) (s : Nat) (ms : List RegexMatch) (cur : Nat)
        (parts0 : List templatePart), ¬ cur < s →
      parseParts text (⟨s, s + 2, .escaped⟩ :: ms) cur parts0 =
        parseParts text ms (s + 2) parts0)
    ∧ (∀ (u v : List Char), '$' ∉ u → '$' ∉ v →
      (newTemplate (String.mk (u ++ '$' :: '$' :: v))).Parse =
        .ok ((if u = [] then [] else [⟨String.mk (u ++ ['$']), .templateLiteral⟩])
          ++ (if v = [] then [] else [⟨String.mk v, .templateLiteral⟩])))
    ∧ (newTemplate (String.mk (['$', lbrace, 'a', rbrace, '$', '$', 'b']))).Parse =
        .ok [⟨"a", .templateVariable⟩, ⟨"b", .templateLiteral⟩]
    ∧ (newTemplate ("a$$$$b")).Parse =
        .ok [⟨"a$", .templateLiteral⟩, ⟨"b", .templateLiteral⟩]
    ∧ (newTemplate ("a$$b$$c")).Parse =
        .ok [⟨"a$", .templateLiteral⟩, ⟨"b$", .templateLiteral⟩,
          ⟨"c", .templateLiteral⟩] := by
  refine ⟨?_, ?_, parse_single_escape, by decide, by decide, by decide⟩
  · intro text s ms cur parts0 h
    simp only [parseParts]
    rw [if_pos h, if_neg (by simp : ¬ ("" : String).length > 0)]
  · intro text s ms cur parts0 h
    simp only [parseParts]
    rw [if_neg h, if_neg (by simp : ¬ ("" : String).length > 0)]

/-- Claim C2 witness: the nonempty-intervening-text step at a concrete loop
state, the empty-intervening-text step (whose `$` is dropped), and the
end-to-end parse of `a$$b`. -/
theorem parse_escape_appends_witness :
    (parseParts ['a', '$', '$', 'b'] [⟨1, 3, .escaped⟩] 0 [] =
      parseParts ['a', '$', '$', 'b'] [] 3 [⟨"a$", .templateLiteral⟩])
    ∧ (parseParts ['a', '$', '$'] [⟨1, 3, .escaped⟩] 1 [] =
        parseParts ['a', '$', '$'] [] 3 [])
    ∧ (newTemplate ("a$$b")).Parse =
        .ok [⟨"a$", .templateLiteral⟩, ⟨"b", .templateLiteral⟩] := by
  refine ⟨?_, ?_, ?_⟩
  · exact parse_escape_appends.1 ['a', '$', '$', 'b'] 1 [] 0 [] (by decide)
  · exact parse_escape_appends.2.1 ['a', '$', '$'] 1 [] 1 [] (by decide)
  · have h := parse_escape_appends.2.2.1 ['a'] ['b'] (by decide) (by decide)
    simpa using h

/-- Claim C2 counterexample: at the very start of the template (`$$`) and
immediately after a previous match (`${a}$$b`) the promised literal `$`
never appears in the output — `Parse` drops it. -/
theorem parse_escape_start_cex :
    (newTemplate ("$$")).Parse = .ok []
    ∧ (newTemplate ("$$")).Parse ≠ .ok [⟨"$", .templateLiteral⟩]
    ∧ (newTemplate ("$$ab")).Parse = .ok [⟨"ab", .templateLiteral⟩]
    ∧ (newTemplate (String.mk (['$', lbrace, 'a', rbrace, '$', '$', 'b']))).Parse =
        .ok [⟨"a", .templateVariable⟩, ⟨"b", .templateLiteral⟩] := by
  refine ⟨by decide, by decide, by decide, by decide⟩

/-- Claim C3 (corrected): `Parse` accepts an empty placeholder but — unlike
the claim's promise of a variable part holding the empty name — emits no
part at all for it: every emitted variable part has a nonempty name. -/
theorem parse_empty_placeholder_skipped (t : template) (parts : List templatePart)
    (h : t.Parse = .ok parts) :
    (∀ p ∈ parts, p.Category = .templateVariable → p.Text ≠ "")
    ∧ (newTemplate (String.mk ['$', lbrace, rbrace])).Parse = .ok []
    ∧ (newTemplate (String.mk (['a', '$', lbrace, rbrace, 'b']))).Parse =
        .ok [⟨"a", .templateLiteral⟩, ⟨"b", .templateLiteral⟩] := by
  refine ⟨?_, by decide, by decide⟩
  unfold template.Parse at h
  exact parseParts_variable_nonempty t.text.data (findMatches t.text.data) 0 [] parts
    (by simp) h

/-- Claim C3 witness: parsing `${x}` yields the single nonempty variable
part `x`, and `${}`, `a${}b` drop the empty placeholder. -/
theorem parse_empty_placeholder_skipped_witness :
    (∀ p ∈ [templatePart.mk ("x") .templateVariable],
      p.Category = .templateVariable → p.Text ≠ "")
    ∧ (newTemplate (String.mk ['$', lbrace, rbrace])).Parse = .ok []
    ∧ (newTemplate (String.mk (['a', '$', lbrace, rbrace, 'b']))).Parse =
        .ok [⟨"a", .templateLiteral⟩, ⟨"b", .templateLiteral⟩] :=
  parse_empty_placeholder_skipped (newTemplate (String.mk ['$', lbrace, 'x', rbrace]))
    [templatePart.mk ("x") .templateVariable] (by decide)

/-- Claim C3 counterexample: `Parse` on `${}` succeeds but emits no
variable part holding the captured empty name — it emits nothing. -/
theorem parse_empty_placeholder_cex :
    (newTemplate (String.mk ['$', lbrace, rbrace])).Parse = .ok []
    ∧ (newTemplate (String.mk ['$', lbrace, rbrace])).Parse ≠
        .ok [⟨"", .templateVariable⟩] := by
  refine ⟨by decide, by decide⟩

/-- Claim C4 (corrected): a parse error's reported position is one more
than the byte offset of the offending `$` (the empty `invalid` capture
group starts just past the `$`), not the offset of the `$` itself. -/
theorem parse_error_after_dollar (t : template) (p : Nat) (h : t.Parse = .error p) :
    (∃ w1 w2, t.text.data = w1 ++ '$' :: w2 ∧ p = w1.length + 1)
    ∧ (newTemplate ("a$b")).Parse = .error 2
    ∧ (newTemplate ("abc$")).Parse = .error 4
    ∧ (newTemplate (String.mk ['$', lbrace, 'f', 'o', 'o'])).Parse = .error 1 := by
  refine ⟨?_, by decide, by decide, by decide⟩
  unfold template.Parse at h
  obtain ⟨m, hmem, hkind, hp⟩ := parseParts_error_invalid t.text.data _ _ _ _ h
  unfold findMatches at hmem
  obtain ⟨w1, w2, hcs, hstart⟩ :=
    findMatchesAux_dollar_start t.text.data.length t.text.data 0 m hmem
  exact ⟨w1, w2, hcs, by omega⟩

/-- Claim C4 witness: for `a$b` the offending `$` sits at byte offset 1
and the reported position is 2. -/
theorem parse_error_after_dollar_witness :
    (∃ w1 w2, (newTemplate ("a$b")).text.data = w1 ++ '$' :: w2 ∧ 2 = w1.length + 1)
    ∧ (newTemplate ("a$b")).Parse = .error 2
    ∧ (newTemplate ("abc$")).Parse = .error 4
    ∧ (newTemplate (String.mk ['$', lbrace, 'f', 'o', 'o'])).Parse = .error 1 :=
  parse_error_after_dollar (newTemplate ("a$b")) 2 (by decide)

/-- Claim C4 counterexample: for `a$b` — whose offending `$` is at byte
offset 1 — `Parse` reports position 2, not 1 as the claim states. -/
theorem parse_error_position_cex :
    (newTemplate ("a$b")).Parse = .error 2
    ∧ (newTemplate ("a$b")).Parse ≠ .error 1 := by
  refine ⟨by decide, by decide⟩

/-- Claim C5 (confirmed): `SetLastTxnTime` updates the watermark iff the
candidate microsecond timestamp is strictly greater than the current value
— equal or smaller candidates leave the client unchanged — and after any
nonempty sequence of calls with (nonnegative) timestamps,
`GetLastTxnTime` returns their maximum. -/
theorem setLastTxnTime_watermark (l : List Int) (hne : l ≠ [])
    (hts : ∀ x ∈ l, 0 ≤ x) :
    ((observeAll defaultClient l).GetLastTxnTime ∈ l
      ∧ ∀ x ∈ l, x ≤ (observeAll defaultClient l).GetLastTxnTime)
    ∧ (∀ (c : Client) (v : Int), v ≤ c.GetLastTxnTime → c.SetLastTxnTime v = c)
    ∧ (∀ (c : Client) (v : Int), c.GetLastTxnTime < v →
        (c.SetLastTxnTime v).GetLastTxnTime = v) := by
  refine ⟨?_, ?_, ?_⟩
  · rw [getLastTxnTime_observeAll]
    obtain ⟨h1, h2, h3⟩ := foldl_max_mem_le l defaultClient.GetLastTxnTime
    refine ⟨?_, h2⟩
    rcases h3 with h3 | h3
    · rcases l with _ | ⟨y, l'⟩
      · exact absurd rfl hne
      · have hy0 : y = 0 := by
          have hu := h2 y (List.mem_cons_self y l')
          have hd := hts y (List.mem_cons_self y l')
          have hinit : defaultClient.GetLastTxnTime = 0 := rfl
          rw [h3, hinit] at hu
          omega
        rw [h3, show defaultClient.GetLastTxnTime = 0 from rfl, ← hy0]
        exact List.mem_cons_self y l'
    · exact h3
  · intro c v hv
    unfold Client.GetLastTxnTime at hv
    unfold Client.SetLastTxnTime
    rw [if_neg (by omega)]
  · intro c v hv
    unfold Client.GetLastTxnTime at hv
    unfold Client.SetLastTxnTime Client.GetLastTxnTime
    rw [if_pos (by omega)]

/-- Claim C5 witness: observing 100, 50, 200 in that order leaves the
watermark at 200, the maximum candidate. -/
theorem setLastTxnTime_watermark_witness :
    ((observeAll defaultClient [100, 50, 200]).GetLastTxnTime ∈ [(100 : Int), 50, 200]
      ∧ ∀ x ∈ [(100 : Int), 50, 200],
          x ≤ (observeAll defaultClient [100, 50, 200]).GetLastTxnTime)
    ∧ (observeAll defaultClient [100, 50, 200]).GetLastTxnTime = 200 :=
  ⟨(setLastTxnTime_watermark [100, 50, 200] (by decide) (by decide)).1, by decide⟩

/-- Claim C7 (corrected): the slept backoff for attempt `n` is
`min(maxBackoff, ⌊2^n * jitter⌋ seconds)` — the jittered product is
truncated to a whole number of seconds before the cap — which never
exceeds the spec's `min(maxBackoff, 2^n * jitter seconds)`; the default
maximum backoff is 20 seconds. -/
theorem backoff_truncated_formula (c : Client) (attempt : Nat) (jitter : ℚ)
    (hj : 0 ≤ jitter) :
    c.backoff attempt jitter =
      min c.maxBackoff (⌊(2 : ℚ) ^ attempt * jitter⌋ * 1000000000)
    ∧ ((c.backoff attempt jitter : ℚ) ≤ backoffSpecFormula c.maxBackoff attempt jitter)
    ∧ retryMaxBackoffDefault = 20 * 1000000000 := by
  have h1 : c.backoff attempt jitter =
      min c.maxBackoff (⌊(2 : ℚ) ^ attempt * jitter⌋ * 1000000000) := by
    unfold Client.backoff
    dsimp only
    split
    · rename_i hgt
      exact (min_eq_left (by omega)).symm
    · rename_i hle
      exact (min_eq_right (by omega)).symm
  refine ⟨h1, ?_, rfl⟩
  rw [h1]
  unfold backoffSpecFormula
  push_cast
  refine min_le_min (le_refl _) ?_
  have hfl : ((⌊(2 : ℚ) ^ attempt * jitter⌋ : ℤ) : ℚ) ≤ (2 : ℚ) ^ attempt * jitter :=
    Int.floor_le _
  nlinarith [hfl]

/-- Claim C7 witness: at attempt 2 with jitter 1/3 the truncated-seconds
formula holds and is below the spec formula. -/
theorem backoff_truncated_formula_witness :
    (defaultClient.backoff 2 (1 / 3) =
      min defaultClient.maxBackoff (⌊(2 : ℚ) ^ 2 * (1 / 3)⌋ * 1000000000))
    ∧ ((defaultClient.backoff 2 (1 / 3) : ℚ) ≤
        backoffSpecFormula defaultClient.maxBackoff 2 (1 / 3))
    ∧ retryMaxBackoffDefault = 20 * 1000000000 :=
  backoff_truncated_formula defaultClient 2 (1 / 3) (by norm_num)

/-- Claim C7 counterexample: for attempt 1 with jitter 3/4 the code sleeps
`⌊1.5⌋ = 1` second (10^9 ns), while the claim's formula
`min(maxBackoff, 2^1 * 3/4 seconds)` is 1.5 seconds. -/
theorem backoff_formula_cex :
    defaultClient.backoff 1 (3 / 4) = 1000000000
    ∧ ((defaultClient.backoff 1 (3 / 4) : ℚ) ≠
        backoffSpecFormula retryMaxBackoffDefault 1 (3 / 4)) := by
  have hfloor : (⌊(2 : ℚ) ^ 1 * (3 / 4)⌋ : ℤ) = 1 := by norm_num
  have hval : defaultClient.backoff 1 (3 / 4) = 1000000000 := by
    unfold Client.backoff
    dsimp only
    rw [hfloor]
    norm_num [defaultClient, retryMaxBackoffDefault]
  refine ⟨hval, ?_⟩
  rw [hval]
  unfold backoffSpecFormula retryMaxBackoffDefault
  norm_num

/-- Claim C8 (confirmed): a transport-level failure is propagated
immediately with a single send and no retry; a response with any status
other than 429 is returned after the first send, as is any response
obtained once the attempt number exceeds `maxAttempts`; more than one send
can happen only when the response is a 429 within the attempt ceiling. -/
theorem doWithRetry_first_send_cases (c : Client) (t : Nat → SendResult) (a : Nat) :
    (∀ e, t a = .failure e → c.doWithRetry t a = (1, .failure e))
    ∧ (∀ r, t a = .response r → r.StatusCode ≠ StatusTooManyRequests →
        c.doWithRetry t a = (1, .response r))
    ∧ (∀ r, t a = .response r → c.maxAttempts < a →
        c.doWithRetry t a = (1, .response r))
    ∧ ((c.doWithRetry t a).1 ≠ 1 →
        ∃ r, t a = .response r ∧ r.StatusCode = StatusTooManyRequests
          ∧ a ≤ c.maxAttempts) := by
  refine ⟨?_, ?_, ?_, ?_⟩
  · intro e he
    unfold Client.doWithRetry
    rw [he]
  · intro r hr hst
    unfold Client.doWithRetry
    rw [hr]
    dsimp only
    rw [if_neg hst]
    split <;> rfl
  · intro r hr hlt
    unfold Client.doWithRetry
    rw [hr]
    dsimp only
    rw [dif_neg (by omega)]
  · intro h1
    rcases ht : t a with e | r
    · exfalso
      apply h1
      unfold Client.doWithRetry
      rw [ht]
    · by_cases hst : r.StatusCode = StatusTooManyRequests
      · by_cases ha : a ≤ c.maxAttempts
        · exact ⟨r, rfl, hst, ha⟩
        · exfalso
          apply h1
          unfold Client.doWithRetry
          rw [ht]
          dsimp only
          rw [dif_neg ha]
      · exfalso
        apply h1
        unfold Client.doWithRetry
        rw [ht]
        dsimp only
        rw [if_neg hst]
        split <;> rfl

/-- Claim C8 witness: a transport failure at attempt 1 is returned to the
caller unchanged after exactly one send. -/
theorem doWithRetry_first_send_cases_witness :
    defaultClient.doWithRetry (fun _ => .failure ("network")) 1 =
      (1, .failure ("network")) :=
  (doWithRetry_first_send_cases defaultClient (fun _ => .failure ("network")) 1).1
    ("network") rfl

/-- Claim C9 (confirmed): a `Next` call returning a page with an empty
cursor clears the stored template (`HasNext` becomes false); one returning
a page with a nonempty cursor stores the cursor-continuation query built
from `Set.paginate` parameterized by that cursor (`HasNext` stays true).
For the spec's scenario of pages with cursors `a`, `b`, `""`, `HasNext` is
true before each of the three `Next` calls and false after the third. -/
theorem queryIterator_next_cursor (q : QueryIterator) (res : QueryOutcome)
    (p : Page) (q' : QueryIterator) (h : q.Next res = (.ok p, q')) :
    ((p.After = "" → q'.fql = none ∧ q'.HasNext = false)
      ∧ (p.After ≠ "" →
          q'.fql = some (Query.fql setPaginateTemplate [(("after"), Value.str p.After)])
          ∧ q'.HasNext = true))
    ∧ (demoIterator0.HasNext = true ∧ demoIterator1.HasNext = true
        ∧ demoIterator2.HasNext = true ∧ demoIterator3.HasNext = false) := by
  have hq : q' = q.nextPage p.After := by
    cases res with
    | queryError e => simp [QueryIterator.Next] at h
    | success data =>
      cases data with
      | page after pdata =>
        simp only [QueryIterator.Next, Prod.mk.injEq, NextResult.ok.injEq] at h
        obtain ⟨hp, hq2⟩ := h
        subst hp
        exact hq2.symm
      | obj fields =>
        simp only [QueryIterator.Next] at h
        split at h
        · simp only [Prod.mk.injEq, NextResult.ok.injEq] at h
          obtain ⟨hp, hq2⟩ := h
          subst hp
          exact hq2.symm
        · simp at h
      | arr elems =>
        simp only [QueryIterator.Next, Prod.mk.injEq, NextResult.ok.injEq] at h
        obtain ⟨hp, hq2⟩ := h
        subst hp
        exact hq2.symm
      | str s =>
        simp only [QueryIterator.Next, Prod.mk.injEq, NextResult.ok.injEq] at h
        obtain ⟨hp, hq2⟩ := h
        subst hp
        exact hq2.symm
      | num n =>
        simp only [QueryIterator.Next, Prod.mk.injEq, NextResult.ok.injEq] at h
        obtain ⟨hp, hq2⟩ := h
        subst hp
        exact hq2.symm
      | null =>
        simp only [QueryIterator.Next, Prod.mk.injEq, NextResult.ok.injEq] at h
        obtain ⟨hp, hq2⟩ := h
        subst hp
        exact hq2.symm
  subst hq
  refine ⟨⟨?_, ?_⟩, by decide⟩
  · intro hafter
    unfold QueryIterator.nextPage
    rw [if_pos hafter]
    exact ⟨rfl, rfl⟩
  · intro hafter
    unfold QueryIterator.nextPage
    rw [if_neg hafter]
    exact ⟨rfl, rfl⟩

/-- Claim C9 witness: the third `Next` of the scenario — the page with the
empty cursor — leaves the iterator exhausted. -/
theorem queryIterator_next_cursor_witness :
    demoIterator3.fql = none ∧ demoIterator3.HasNext = false :=
  ((queryIterator_next_cursor demoIterator2 (.success (.page ("") []))
    ⟨"", []⟩ demoIterator3 rfl).1).1 rfl

/-- Claim C10 (confirmed): for a success payload that is a generic mapping
whose `"data"` key does not hold a sequence (or is absent), `Next` panics
on the failed `results["data"].([]any)` type assertion instead of
returning a page or an error; such mapping payloads produce a page only
when `"data"` holds a sequence. -/
theorem queryIterator_data_assertion (q : QueryIterator)
    (fields : List (String × Value)) :
    (hasDataArray fields = false →
      q.Next (.success (.obj fields)) = (.panicked, q))
    ∧ (hasDataArray fields = true →
      ∃ p q2, q.Next (.success (.obj fields)) = (.ok p, q2)) := by
  constructor
  · intro hfalse
    unfold hasDataArray at hfalse
    unfold QueryIterator.Next
    dsimp only
    generalize hdl : List.lookup ("data") fields = o
    rw [hdl] at hfalse
    match o with
    | none => rfl
    | some (.arr l) => exact absurd hfalse (by simp)
    | some (.page a d) => rfl
    | some (.obj f) => rfl
    | some (.str s) => rfl
    | some (.num n) => rfl
    | some .null => rfl
  · intro htrue
    unfold hasDataArray at htrue
    unfold QueryIterator.Next
    dsimp only
    generalize hdl : List.lookup ("data") fields = o
    rw [hdl] at htrue
    match o with
    | some (.arr l) => exact ⟨_, _, rfl⟩
    | none => exact absurd htrue (by simp)
    | some (.page a d) => exact absurd htrue (by simp)
    | some (.obj f) => exact absurd htrue (by simp)
    | some (.str s) => exact absurd htrue (by simp)
    | some (.num n) => exact absurd htrue (by simp)
    | some .null => exact absurd htrue (by simp)

/-- Claim C10 witness: a mapping without a `"data"` sequence makes `Next`
panic, and one carrying a `"data"` sequence yields a page. -/
theorem queryIterator_data_assertion_witness :
    demoIterator0.Next (.success (.obj [(("foo"), Value.num 1)])) =
      (.panicked, demoIterator0)
    ∧ ∃ p q2, demoIterator0.Next (.success (.obj [(("data"), Value.arr [])])) =
        (.ok p, q2) :=
  ⟨(queryIterator_data_assertion demoIterator0 [(("foo"), Value.num 1)]).1 rfl,
   (queryIterator_data_assertion demoIterator0 [(("data"), Value.arr [])]).2 rfl⟩
